import Mathlib

/-!
Verification of the Arena-Srsnov registration and waitlist engine.

The definitions below are a shallow embedding of the TypeScript source:

* `Attendee`, `Event` — the legacy event document shape
  (src/src/types/index.ts), with `capacity : Option Nat` modelling
  `capacity: number | null` (null = unbounded) and `bookedAt` as a
  natural-number timestamp.
* `arrayUnion`, `arrayRemove` — the Firestore array update operators used
  by the booking page: `arrayUnion` appends an element unless an equal one
  is already present; `arrayRemove` removes every equal element.
* `isFull`, `handleBooking`, `handleCancelBooking` — the booking logic of
  src/src/pages/EventDetailPage.tsx.
* `TrainerSlot`, `Registration`, `isFullSlot`, `trueConfirmedCount`,
  `auditTrainers`, `handleDeleteEvent` — the multi-trainer event detail
  page (src/unnamed/part_001) and its count-repair pass.
* `WalkIn`, `handleSubmitWalkIn` — src/src/components/AddWalkInModal.tsx.
-/

/-- One entry of the legacy `attendees` / `waitlist` arrays
(src/src/types/index.ts, `Attendee`).  `bookedAt` is a timestamp. -/
structure Attendee where
  id : String
  name : String
  email : String
  phone : String
  bookedAt : Nat
deriving DecidableEq, Repr

/-- The legacy event document as read by EventDetailPage.tsx: a capacity
(`none` models the `null` sentinel for unbounded), the confirmed
`attendees` array, the `waitlist` array and the `updatedAt` stamp. -/
structure Event where
  capacity : Option Nat
  attendees : List Attendee
  waitlist : List Attendee
  updatedAt : Nat
deriving DecidableEq, Repr

/-- Firestore `arrayUnion(x)` on a list field: appends `x` at the end
unless an equal element is already present. -/
def arrayUnion {α : Type} [DecidableEq α] (l : List α) (x : α) : List α :=
  if x ∈ l then l else l ++ [x]

/-- Firestore `arrayRemove(x)` on a list field: removes every element equal
to `x`. -/
def arrayRemove {α : Type} [DecidableEq α] (l : List α) (x : α) : List α :=
  l.filter (fun y => y ≠ x)

/-- The fullness test of the legacy pages
(EventDetailPage.tsx line 80, CalendarPage `getEventColor`):
`event.capacity !== null && confirmedCount >= event.capacity`. -/
def isFull (capacity : Option Nat) (confirmedCount : Nat) : Bool :=
  match capacity with
  | none => false
  | some c => decide (confirmedCount ≥ c)

/-- The fullness test of the multi-trainer pages
(TrainerSelectionModal.tsx lines 138-141, part_001 line 689):
`capacity !== -1 && currentCount >= capacity`; `-1` is the unbounded
sentinel of `TrainerSlot.capacity`. -/
def isFullSlot (capacity currentCount : Int) : Bool :=
  decide (capacity ≠ -1) && decide (currentCount ≥ capacity)

/-- The contact fields entered in the booking dialog. -/
structure BookingData where
  name : String
  email : String
  phone : String
deriving DecidableEq, Repr

/-- Outcome of `handleBooking`, distinguishing the validation error toast
from the two success toasts. -/
inductive BookResult
  | validationError
  | waitlisted
  | confirmed
deriving DecidableEq, Repr

/-- The booking handler of EventDetailPage.tsx (`handleBooking`,
lines 58-132): reject empty fields, otherwise build the new attendee and
either `arrayUnion` it into `waitlist` (slot full) or into `attendees`. -/
def handleBooking (ev : Event) (bd : BookingData) (newId : String)
    (now : Nat) : Event × BookResult :=
  if bd.name = "" || bd.email = "" || bd.phone = "" then
    (ev, BookResult.validationError)
  else
    let newAttendee : Attendee :=
      { id := newId, name := bd.name, email := bd.email, phone := bd.phone,
        bookedAt := now }
    let confirmedCount := ev.attendees.length
    if isFull ev.capacity confirmedCount then
      ({ ev with waitlist := arrayUnion ev.waitlist newAttendee,
                 updatedAt := now },
       BookResult.waitlisted)
    else
      ({ ev with attendees := arrayUnion ev.attendees newAttendee,
                 updatedAt := now },
       BookResult.confirmed)

/-- The contact match used by `handleCancelBooking`:
`a.email === cancelData.email && a.phone === cancelData.phone`. -/
def matchesContact (email phone : String) (a : Attendee) : Bool :=
  a.email == email && a.phone == phone

/-- Outcome of `handleCancelBooking`: `notFound` is the `cancelError`
toast shown when no attendee matches; the `promoted` flag of
`cancelledConfirmed` records whether the waitlist head was promoted. -/
inductive CancelResult
  | validationError
  | notFound
  | removedFromWaitlist
  | cancelledConfirmed (promoted : Bool)
deriving DecidableEq, Repr

/-- The cancel handler of EventDetailPage.tsx (`handleCancelBooking`,
lines 134-218): find the first attendee matching the contact data in
`attendees ++ waitlist`; if it sits in the waitlist, `arrayRemove` it
there; otherwise remove it from `attendees` and, when the waitlist is
non-empty, move its first entry into `attendees` in a second update (the
second update writes no `updatedAt`, exactly as in the source). -/
def handleCancelBooking (ev : Event) (email phone : String) (now : Nat) :
    Event × CancelResult :=
  if email = "" || phone = "" then
    (ev, CancelResult.validationError)
  else
    match (ev.attendees ++ ev.waitlist).find? (matchesContact email phone) with
    | none => (ev, CancelResult.notFound)
    | some attendee =>
      if ev.waitlist.any (fun a => a.id == attendee.id) then
        ({ ev with waitlist := arrayRemove ev.waitlist attendee,
                   updatedAt := now },
         CancelResult.removedFromWaitlist)
      else
        let afterRemove : Event :=
          { ev with attendees := arrayRemove ev.attendees attendee,
                    updatedAt := now }
        match ev.waitlist with
        | [] => (afterRemove, CancelResult.cancelledConfirmed false)
        | firstWaitlisted :: _ =>
          ({ afterRemove with
               attendees := arrayUnion afterRemove.attendees firstWaitlisted,
               waitlist := arrayRemove ev.waitlist firstWaitlisted },
           CancelResult.cancelledConfirmed true)

/-- One user-level operation against the legacy event document. -/
inductive Op
  | register (name email phone newId : String) (now : Nat)
  | cancel (email phone : String) (now : Nat)
deriving DecidableEq, Repr

/-- Apply one operation to the event state. -/
def step (ev : Event) : Op → Event
  | Op.register n e p i t =>
      (handleBooking ev { name := n, email := e, phone := p } i t).1
  | Op.cancel e p t => (handleCancelBooking ev e p t).1

/-- Run a sequence of operations. -/
def run (ev : Event) : List Op → Event
  | [] => ev
  | op :: ops => run (step ev op) ops

/-- One per-trainer slot of the multi-trainer event shape
(src/src/types/index.ts, `TrainerSlot`): `capacity = -1` means unlimited;
`currentCount` is the stored confirmed count. -/
structure TrainerSlot where
  trainerId : String
  capacity : Int
  currentCount : Int
deriving DecidableEq, Repr

/-- Status of a `Registration` (src/src/types/index.ts). -/
inductive RegStatus
  | confirmed
  | waitlist
  | cancelled
deriving DecidableEq, Repr

/-- A registration document of the new system
(src/src/types/index.ts, `Registration`). -/
structure Registration where
  id : String
  eventId : String
  trainerId : String
  name : String
  email : String
  phone : String
  uniqueCode : String
  status : RegStatus
  position : Option Nat
deriving DecidableEq, Repr

/-- The true confirmed count of a trainer slot, recomputed from the
registration set exactly as in part_001 line 417:
`regs.filter(r => r.trainerId === trainerId && r.status === 'confirmed').length`. -/
def trueConfirmedCount (regs : List Registration) (trainerId : String) : Nat :=
  (regs.filter
    (fun r => r.trainerId == trainerId && r.status == RegStatus.confirmed)).length

/-- The count-repair pass of `fetchEventAndRegistrations`
(part_001 lines 413-430): for every trainer entry, recompute the actual
confirmed count from the fetched registrations and overwrite the stored
`currentCount` whenever it differs; matching entries are left untouched. -/
def auditTrainers (trainersObj : List (String × TrainerSlot))
    (regs : List Registration) : List (String × TrainerSlot) :=
  trainersObj.map (fun p =>
    let actualCount : Int := trueConfirmedCount regs p.1
    if p.2.currentCount ≠ actualCount then
      (p.1, { p.2 with currentCount := actualCount })
    else p)

/-- The multi-trainer event document as far as the modelled handlers read
it: its id, the trainer-slot map and the optional legacy `trainerId`. -/
structure EventDoc where
  id : String
  trainers : List (String × TrainerSlot)
  trainerId : Option String
deriving DecidableEq, Repr

/-- A walk-in participant document
(src/src/types/index.ts, `WalkIn`, as written by AddWalkInModal.tsx). -/
structure WalkIn where
  eventId : String
  trainerId : Option String
  name : String
  notes : String
  checkedInAt : Nat
  addedBy : String
deriving DecidableEq, Repr

/-- The Firestore collections the modelled handlers touch, each a list of
(document id, document) pairs. -/
structure FirestoreState where
  events : List (String × EventDoc)
  registrations : List (String × Registration)
  walkIns : List (String × WalkIn)
deriving DecidableEq, Repr

/-- Firestore `getDoc` on a collection: the first document with the id. -/
def getDocFrom {α : Type} (coll : List (String × α)) (docId : String) :
    Option α :=
  (coll.find? (fun p => p.1 == docId)).map (fun p => p.2)

/-- Firestore `deleteDoc`: drop every document with the id. -/
def deleteDocFrom {α : Type} (coll : List (String × α)) (docId : String) :
    List (String × α) :=
  coll.filter (fun p => p.1 ≠ docId)

/-- The event deletion handler of part_001 (`handleDeleteEvent`,
lines 475-507): `deleteDoc` the event document, then `deleteDoc` every
fetched registration document. -/
def handleDeleteEvent (st : FirestoreState) (eventId : String)
    (registrations : List Registration) : FirestoreState :=
  let st1 : FirestoreState :=
    { st with events := deleteDocFrom st.events eventId }
  registrations.foldl
    (fun s reg =>
      { s with registrations := deleteDocFrom s.registrations reg.id })
    st1

/-- JavaScript `a || b` over the trainer-id strings in AddWalkInModal
(`event.trainerId || Object.keys(event.trainers || {})[0] || undefined`):
an empty string is falsy and falls through. -/
def firstTruthy (a b : Option String) : Option String :=
  match a with
  | some s => if s = "" then b else some s
  | none => b

/-- The trainer id written on a walk-in record. -/
def walkInTrainerId (ev : EventDoc) : Option String :=
  firstTruthy ev.trainerId ((ev.trainers.map (fun p => p.1)).head?)

/-- JavaScript `String.prototype.trim()`: strip leading and trailing
whitespace. -/
def jsTrim (s : String) : String :=
  String.mk
    (((s.data.dropWhile Char.isWhitespace).reverse.dropWhile
        Char.isWhitespace).reverse)

/-- Outcome of the walk-in submit handler: the two error toasts or the
added record. -/
inductive WalkInResult
  | nameRequired
  | notAuthenticated
  | added (w : WalkIn)
deriving DecidableEq, Repr

/-- The submit handler of AddWalkInModal.tsx (`handleSubmit`,
lines 29-90): reject an all-whitespace name or a missing authenticated
user, otherwise `addDoc` a single record into the `walkIns` collection. -/
def handleSubmitWalkIn (st : FirestoreState) (ev : EventDoc)
    (name notes : String) (userUid : Option String) (newDocId : String)
    (now : Nat) : FirestoreState × WalkInResult :=
  if jsTrim name = "" then (st, WalkInResult.nameRequired)
  else
    match userUid with
    | none => (st, WalkInResult.notAuthenticated)
    | some uid =>
      let w : WalkIn :=
        { eventId := ev.id, trainerId := walkInTrainerId ev,
          name := jsTrim name, notes := jsTrim notes,
          checkedInAt := now, addedBy := uid }
      ({ st with walkIns := st.walkIns ++ [(newDocId, w)] },
       WalkInResult.added w)

/-- Waitlist positions as displayed by EventDetailPage.tsx line 346
(`#{index + 1}`): the position of a waitlisted entry is its array index
plus one. -/
def waitlistPositions (ev : Event) : List Nat :=
  (List.range ev.waitlist.length).map (fun i => i + 1)

/-- The waitlist array is ordered by booking time. -/
def waitlistSortedByBookedAt (ev : Event) : Prop :=
  ev.waitlist.Pairwise (fun x y => x.bookedAt ≤ y.bookedAt)

/-- Timing side condition on one operation: a registration carries a
timestamp no earlier than the booking times already in the waitlist,
matching the source where `bookedAt: new Date()` is the current time. -/
def opTimeOk (ev : Event) : Op → Prop
  | Op.register _ _ _ _ now => ∀ x ∈ ev.waitlist, x.bookedAt ≤ now
  | Op.cancel _ _ _ => True

/-- Timing side condition on a run: every operation is well timed in the
state it is applied to. -/
def wellTimed : Event → List Op → Prop
  | _, [] => True
  | ev, op :: ops => opTimeOk ev op ∧ wellTimed (step ev op) ops

/-- Membership in `arrayRemove`. -/
lemma mem_arrayRemove {α : Type} [DecidableEq α] {l : List α} {a x : α} :
    x ∈ arrayRemove l a ↔ x ∈ l ∧ x ≠ a := by
  simp [arrayRemove]

/-- `arrayRemove` of an absent element changes nothing. -/
lemma arrayRemove_eq_self {α : Type} [DecidableEq α] {l : List α} {a : α}
    (h : a ∉ l) : arrayRemove l a = l := by
  induction l with
  | nil => rfl
  | cons b t ih =>
    have hba : b ≠ a := by
      intro hEq; exact h (hEq ▸ List.mem_cons_self b t)
    have hat : a ∉ t := fun hm => h (List.mem_cons_of_mem b hm)
    simp [arrayRemove, List.filter_cons, hba, ih hat]
    simpa [arrayRemove] using ih hat

/-- `arrayRemove` drops a head equal to the removed element. -/
lemma arrayRemove_cons_self {α : Type} [DecidableEq α] {t : List α} {a : α}
    (h : a ∉ t) : arrayRemove (a :: t) a = t := by
  simp [arrayRemove, List.filter_cons]
  simpa [arrayRemove] using arrayRemove_eq_self h

/-- `arrayUnion` of a fresh element appends it at the end. -/
lemma arrayUnion_eq_append {α : Type} [DecidableEq α] {l : List α} {a : α}
    (h : a ∉ l) : arrayUnion l a = l ++ [a] := by
  simp [arrayUnion, h]

/-- Membership in `arrayUnion`. -/
lemma mem_arrayUnion {α : Type} [DecidableEq α] {l : List α} {a x : α} :
    x ∈ arrayUnion l a ↔ x ∈ l ∨ x = a := by
  by_cases h : a ∈ l
  · simp [arrayUnion, h]
    intro hx; exact hx ▸ h
  · simp [arrayUnion, h]

/-- `arrayRemove` never lengthens the list. -/
lemma arrayRemove_length_le {α : Type} [DecidableEq α] (l : List α) (a : α) :
    (arrayRemove l a).length ≤ l.length :=
  List.length_filter_le _ l

/-- `arrayRemove` of a present element strictly shortens the list. -/
lemma arrayRemove_length_lt {α : Type} [DecidableEq α] {l : List α} {a : α}
    (h : a ∈ l) : (arrayRemove l a).length < l.length := by
  induction l with
  | nil => cases h
  | cons b t ih =>
    by_cases hba : b = a
    · subst hba
      have : (arrayRemove (b :: t) b).length ≤ t.length := by
        simp [arrayRemove, List.filter_cons]
        exact List.length_filter_le _ t
      exact lt_of_le_of_lt this (by simp)
    · have hat : a ∈ t := by
        rcases List.mem_cons.mp h with h1 | h1
        · exact absurd h1.symm hba
        · exact h1
      have := ih hat
      simp [arrayRemove, List.filter_cons, hba] at this ⊢
      omega

/-- `arrayUnion` adds at most one element. -/
lemma arrayUnion_length_le {α : Type} [DecidableEq α] (l : List α) (a : α) :
    (arrayUnion l a).length ≤ l.length + 1 := by
  by_cases h : a ∈ l
  · simp [arrayUnion, h]
  · simp [arrayUnion, h]

/-- C6: for every slot, the fullness test returns false when the capacity
is the unbounded sentinel (`null` in the legacy shape, `-1` in the
trainer-slot shape), and otherwise returns true exactly when the confirmed
count is at least the capacity. -/
theorem c6_isFull_spec :
    (∀ n : Nat, isFull none n = false) ∧
    (∀ c n : Nat, (isFull (some c) n = true ↔ n ≥ c)) ∧
    (∀ count : Int, isFullSlot (-1) count = false) ∧
    (∀ cap count : Int, cap ≠ -1 →
      (isFullSlot cap count = true ↔ count ≥ cap)) := by
  refine ⟨fun n => rfl, fun c n => by simp [isFull], fun count => by
    simp [isFullSlot], fun cap count h => by simp [isFullSlot, h]⟩

/-- Witness for C6 at concrete capacities and counts. -/
theorem c6_isFull_spec_witness :
    isFull none 5 = false ∧ isFull (some 2) 3 = true ∧
    isFullSlot (-1) 7 = false ∧ isFullSlot 2 3 = true := by
  exact ⟨c6_isFull_spec.1 5, (c6_isFull_spec.2.1 2 3).mpr (by decide),
    c6_isFull_spec.2.2.1 7,
    (c6_isFull_spec.2.2.2 2 3 (by decide)).mpr (by decide)⟩

/-- C7: the audit pass recomputes every slot's true confirmed count from
the registration set and overwrites the stored `currentCount` with it,
leaving the trainer id and every other slot field unchanged; slots whose
stored count already matches are untouched (the rewrite below is the
identity on them). -/
theorem c7_audit_repairs_counts (trainersObj : List (String × TrainerSlot))
    (regs : List Registration) :
    auditTrainers trainersObj regs =
      trainersObj.map (fun p =>
        (p.1, { p.2 with
                  currentCount := (trueConfirmedCount regs p.1 : Int) })) := by
  unfold auditTrainers
  refine List.map_congr_left ?_
  intro p _
  by_cases h : p.2.currentCount = (trueConfirmedCount regs p.1 : Int)
  · simp only [h, ne_eq, not_true_eq_false, if_false]
    cases p with
    | mk tid slot =>
      cases slot
      simp_all
  · simp [h]

/-- C10: adding a walk-in only appends one record to the `walkIns`
collection; the events collection (hence every trainer slot's capacity and
`currentCount`) and the registrations collection are untouched. -/
theorem c10_walkin_frame (st : FirestoreState) (ev : EventDoc)
    (name notes uid newDocId : String) (now : Nat)
    (hname : jsTrim name ≠ "") :
    (handleSubmitWalkIn st ev name notes (some uid) newDocId now).1.events =
      st.events ∧
    (handleSubmitWalkIn st ev name notes (some uid) newDocId
      now).1.registrations = st.registrations ∧
    (handleSubmitWalkIn st ev name notes (some uid) newDocId now).1.walkIns =
      st.walkIns ++
        [(newDocId,
          { eventId := ev.id, trainerId := walkInTrainerId ev,
            name := jsTrim name, notes := jsTrim notes, checkedInAt := now,
            addedBy := uid })] ∧
    (handleSubmitWalkIn st ev name notes (some uid) newDocId now).2 =
      WalkInResult.added
        { eventId := ev.id, trainerId := walkInTrainerId ev,
          name := jsTrim name, notes := jsTrim notes, checkedInAt := now,
          addedBy := uid } := by
  simp [handleSubmitWalkIn, hname]

/-- Witness for C10 on a concrete store and walk-in. -/
theorem c10_walkin_frame_witness :
    (handleSubmitWalkIn
        { events := [("e1", { id := "e1", trainers := [], trainerId := none })],
          registrations := [], walkIns := [] }
        { id := "e1", trainers := [], trainerId := none }
        "Jan" "" (some "trainer1") "w1" 10).1.events =
      [("e1", { id := "e1", trainers := [], trainerId := none })] := by
  have h := c10_walkin_frame
    { events := [("e1", { id := "e1", trainers := [], trainerId := none })],
      registrations := [], walkIns := [] }
    { id := "e1", trainers := [], trainerId := none }
    "Jan" "" "trainer1" "w1" 10 (by decide)
  exact h.1

/-- C3: a registration request on a full bounded slot is not an error: it
succeeds with a waitlisted result and the new attendee is appended at the
end of the waitlist. -/
theorem c3_register_full_waitlists (ev : Event) (bd : BookingData)
    (newId : String) (now : Nat) (c : Nat)
    (hname : bd.name ≠ "") (hemail : bd.email ≠ "") (hphone : bd.phone ≠ "")
    (hcap : ev.capacity = some c) (hfull : ev.attendees.length ≥ c)
    (hfresh : ({ id := newId, name := bd.name, email := bd.email,
                 phone := bd.phone, bookedAt := now } : Attendee) ∉
                ev.waitlist) :
    handleBooking ev bd newId now =
      ({ ev with
           waitlist := ev.waitlist ++
             [{ id := newId, name := bd.name, email := bd.email,
                phone := bd.phone, bookedAt := now }],
           updatedAt := now },
       BookResult.waitlisted) := by
  have hisfull : isFull ev.capacity ev.attendees.length = true := by
    simp [isFull, hcap, hfull]
  simp [handleBooking, hname, hemail, hphone, hisfull,
    arrayUnion_eq_append hfresh]

/-- Witness for C3: registering on a full capacity-1 slot joins the
waitlist. -/
theorem c3_register_full_waitlists_witness :
    handleBooking
      { capacity := some 1,
        attendees := [{ id := "a1", name := "P1", email := "p1@x.sk",
                        phone := "0901", bookedAt := 0 }],
        waitlist := [], updatedAt := 0 }
      { name := "P2", email := "p2@x.sk", phone := "0902" } "a2" 5 =
      ({ capacity := some 1,
         attendees := [{ id := "a1", name := "P1", email := "p1@x.sk",
                         phone := "0901", bookedAt := 0 }],
         waitlist := [{ id := "a2", name := "P2", email := "p2@x.sk",
                        phone := "0902", bookedAt := 5 }],
         updatedAt := 5 },
       BookResult.waitlisted) := by
  exact c3_register_full_waitlists _ _ _ _ 1 (by decide) (by decide)
    (by decide) rfl (by decide) (by decide)

/-- C1: cancelling a confirmed registration (the matched attendee sits in
the `attendees` array, not the waitlist) promotes exactly the waitlist
head — the entry at the lowest position — into `attendees`, and the new
waitlist is the old tail, so every remaining entry's position (index + 1)
drops by exactly one; with an empty waitlist nothing is promoted and the
waitlist stays empty. -/
theorem c1_cancel_promotes_waitlist_head (ev : Event) (email phone : String)
    (now : Nat) (a : Attendee)
    (hemail : email ≠ "") (hphone : phone ≠ "")
    (hfind : (ev.attendees ++ ev.waitlist).find? (matchesContact email phone)
              = some a)
    (hids : ∀ y ∈ ev.waitlist, y.id ≠ a.id)
    (hnodup : ev.waitlist.Nodup)
    (hdisj : ∀ y ∈ ev.waitlist, y ∉ ev.attendees) :
    (ev.waitlist = [] →
      handleCancelBooking ev email phone now =
        ({ ev with attendees := arrayRemove ev.attendees a,
                   updatedAt := now },
         CancelResult.cancelledConfirmed false)) ∧
    (∀ w0 rest, ev.waitlist = w0 :: rest →
      handleCancelBooking ev email phone now =
        ({ ev with attendees := arrayRemove ev.attendees a ++ [w0],
                   waitlist := rest, updatedAt := now },
         CancelResult.cancelledConfirmed true)) := by
  have hany : ev.waitlist.any (fun y => y.id == a.id) = false := by
    rw [List.any_eq_false]
    intro y hy
    simp [hids y hy]
  have hcond : (email = "" || phone = "") = false := by
    simp [hemail, hphone]
  constructor
  · intro hw
    rw [hw] at hany
    unfold handleCancelBooking
    simp only [hcond, Bool.false_eq_true, if_false, hfind]
    simp only [hw, hany]
    simp
  · intro w0 rest hw
    rw [hw] at hany
    have hw0rest : w0 ∉ rest := by
      have h := hnodup
      rw [hw] at h
      exact (List.nodup_cons.mp h).1
    have hw0att : w0 ∉ arrayRemove ev.attendees a := by
      intro hmem
      exact hdisj w0 (hw ▸ List.mem_cons_self w0 rest)
        (mem_arrayRemove.mp hmem).1
    unfold handleCancelBooking
    simp only [hcond, Bool.false_eq_true, if_false, hfind]
    simp only [hw, hany]
    simp [arrayUnion_eq_append hw0att, arrayRemove_cons_self hw0rest]

/-- Witness for C1: cancelling the single confirmed attendee of a
capacity-1 slot with a two-entry waitlist promotes the head and shifts the
second entry to position 1. -/
theorem c1_cancel_promotes_waitlist_head_witness :
    handleCancelBooking
      { capacity := some 1,
        attendees := [{ id := "a1", name := "P1", email := "p1@x.sk",
                        phone := "0901", bookedAt := 0 }],
        waitlist := [{ id := "w1", name := "P2", email := "p2@x.sk",
                       phone := "0902", bookedAt := 1 },
                     { id := "w2", name := "P3", email := "p3@x.sk",
                       phone := "0903", bookedAt := 2 }],
        updatedAt := 0 }
      "p1@x.sk" "0901" 9 =
      ({ capacity := some 1,
         attendees := [{ id := "w1", name := "P2", email := "p2@x.sk",
                         phone := "0902", bookedAt := 1 }],
         waitlist := [{ id := "w2", name := "P3", email := "p3@x.sk",
                        phone := "0903", bookedAt := 2 }],
         updatedAt := 9 },
       CancelResult.cancelledConfirmed true) := by
  have h := (c1_cancel_promotes_waitlist_head
    { capacity := some 1,
      attendees := [{ id := "a1", name := "P1", email := "p1@x.sk",
                      phone := "0901", bookedAt := 0 }],
      waitlist := [{ id := "w1", name := "P2", email := "p2@x.sk",
                     phone := "0902", bookedAt := 1 },
                   { id := "w2", name := "P3", email := "p3@x.sk",
                     phone := "0903", bookedAt := 2 }],
      updatedAt := 0 }
    "p1@x.sk" "0901" 9
    { id := "a1", name := "P1", email := "p1@x.sk", phone := "0901",
      bookedAt := 0 }
    (by decide) (by decide) (by decide) (by decide) (by decide)
    (by decide)).2
    { id := "w1", name := "P2", email := "p2@x.sk", phone := "0902",
      bookedAt := 1 }
    [{ id := "w2", name := "P3", email := "p3@x.sk", phone := "0903",
       bookedAt := 2 }] rfl
  simpa [arrayRemove] using h

/-- Every operation leaves the capacity field unchanged. -/
lemma step_capacity (ev : Event) (op : Op) :
    (step ev op).capacity = ev.capacity := by
  cases op with
  | register n e p i t =>
    simp only [step, handleBooking]
    split
    · rfl
    · split <;> rfl
  | cancel e p t =>
    simp only [step, handleCancelBooking]
    split
    · rfl
    · split
      · rfl
      · split
        · rfl
        · split <;> rfl

/-- Every operation preserves the capacity bound on the confirmed count. -/
lemma step_attendees_le (ev : Event) (op : Op) (c : Nat)
    (hcap : ev.capacity = some c) (hle : ev.attendees.length ≤ c) :
    (step ev op).attendees.length ≤ c := by
  cases op with
  | register n e p i t =>
    simp only [step, handleBooking]
    split
    · simpa using hle
    · split
      · simpa using hle
      · next hfull =>
          have hlt : ev.attendees.length < c := by
            by_contra hge
            exact hfull (by simp [isFull, hcap]; omega)
          have h2 := arrayUnion_length_le ev.attendees
            { id := i, name := n, email := e, phone := p, bookedAt := t }
          simp only []
          omega
  | cancel e p t =>
    simp only [step, handleCancelBooking]
    split
    · simpa using hle
    · split
      · simpa using hle
      · next a hfind =>
          split
          · simpa using hle
          · next hany =>
              have hmem : a ∈ ev.attendees := by
                have hm := List.mem_of_find?_eq_some hfind
                rcases List.mem_append.mp hm with h1 | h1
                · exact h1
                · refine absurd ?_ hany
                  rw [List.any_eq_true]
                  exact ⟨a, h1, by simp⟩
              split
              · have := arrayRemove_length_le ev.attendees a
                simp only []
                omega
              · next w0 rest hw =>
                  have h1 := arrayRemove_length_lt hmem
                  have h2 := arrayUnion_length_le
                    (arrayRemove ev.attendees a) w0
                  simp only []
                  omega

/-- C2: over every sequence of register and cancel operations on a
bounded-capacity event, the confirmed count (length of `attendees`) never
exceeds the capacity and never becomes negative. -/
theorem c2_confirmed_count_bounded (ops : List Op) (ev : Event) (c : Nat)
    (hcap : ev.capacity = some c) (hle : ev.attendees.length ≤ c) :
    (run ev ops).attendees.length ≤ c ∧
    (0 : Int) ≤ ((run ev ops).attendees.length : Int) := by
  refine ⟨?_, Int.ofNat_nonneg _⟩
  induction ops generalizing ev with
  | nil => simpa [run] using hle
  | cons op ops ih =>
    have hcap2 : (step ev op).capacity = some c := by
      rw [step_capacity, hcap]
    exact ih (step ev op) hcap2 (step_attendees_le ev op c hcap hle)

/-- Witness for C2: three registrations and a cancellation on a
capacity-2 event keep the confirmed count at most 2. -/
theorem c2_confirmed_count_bounded_witness :
    (run { capacity := some 2, attendees := [], waitlist := [],
           updatedAt := 0 }
      [Op.register "P1" "p1@x.sk" "0901" "a1" 1,
       Op.register "P2" "p2@x.sk" "0902" "a2" 2,
       Op.register "P3" "p3@x.sk" "0903" "a3" 3,
       Op.cancel "p1@x.sk" "0901" 4]).attendees.length ≤ 2 :=
  (c2_confirmed_count_bounded _ _ 2 rfl (by decide)).1

/-- Every operation keeps the waitlist ordered by booking time, provided a
registration's timestamp is no earlier than the booking times already in
the waitlist. -/
lemma step_waitlist_sorted (ev : Event) (op : Op)
    (hs : ev.waitlist.Pairwise (fun x y => x.bookedAt ≤ y.bookedAt))
    (ht : opTimeOk ev op) :
    (step ev op).waitlist.Pairwise (fun x y => x.bookedAt ≤ y.bookedAt) := by
  cases op with
  | register n e p i t =>
    simp only [step, handleBooking]
    split
    · simpa using hs
    · split
      · by_cases hmem : ({ id := i, name := n, email := e, phone := p,
                           bookedAt := t } : Attendee) ∈ ev.waitlist
        · simpa [arrayUnion, hmem] using hs
        · simp only []
          rw [arrayUnion_eq_append hmem, List.pairwise_append]
          refine ⟨hs, by simp, ?_⟩
          intro x hx y hy
          simp only [List.mem_singleton] at hy
          subst hy
          exact ht x hx
      · simpa using hs
  | cancel e p t =>
    simp only [step, handleCancelBooking]
    split
    · simpa using hs
    · split
      · simpa using hs
      · split
        · simpa [arrayRemove] using hs.filter _
        · split
          · simpa using hs
          · simpa [arrayRemove] using hs.filter _

/-- C5: after every completed run, the displayed waitlist positions
(array index plus one) form the contiguous duplicate-free sequence
`1..N`, and the waitlist stays ordered by the original booking time
whenever the run is well timed. -/
theorem c5_waitlist_positions_contiguous (ev : Event) (ops : List Op)
    (hs : waitlistSortedByBookedAt ev) (ht : wellTimed ev ops) :
    waitlistSortedByBookedAt (run ev ops) ∧
    waitlistPositions (run ev ops) =
      List.range' 1 (run ev ops).waitlist.length ∧
    (waitlistPositions (run ev ops)).Nodup := by
  have hpos : ∀ e : Event,
      waitlistPositions e = List.range' 1 e.waitlist.length := by
    intro e
    rw [List.range'_eq_map_range]
    simp [waitlistPositions, Nat.add_comm]
  refine ⟨?_, hpos _, by rw [hpos]; exact List.nodup_range' _ _⟩
  induction ops generalizing ev with
  | nil => simpa [run] using hs
  | cons op ops ih =>
    obtain ⟨h1, h2⟩ := ht
    exact ih (step ev op) (step_waitlist_sorted ev op hs h1) h2

/-- Witness for C5: two registrations on an always-full (capacity 0)
event leave a waitlist sorted by booking time with positions 1, 2. -/
theorem c5_waitlist_positions_contiguous_witness :
    waitlistSortedByBookedAt
      (run { capacity := some 0, attendees := [], waitlist := [],
             updatedAt := 0 }
        [Op.register "P1" "p1@x.sk" "0901" "a1" 1,
         Op.register "P2" "p2@x.sk" "0902" "a2" 2]) ∧
    waitlistPositions
      (run { capacity := some 0, attendees := [], waitlist := [],
             updatedAt := 0 }
        [Op.register "P1" "p1@x.sk" "0901" "a1" 1,
         Op.register "P2" "p2@x.sk" "0902" "a2" 2]) = [1, 2] := by
  have h := c5_waitlist_positions_contiguous
    { capacity := some 0, attendees := [], waitlist := [], updatedAt := 0 }
    [Op.register "P1" "p1@x.sk" "0901" "a1" 1,
     Op.register "P2" "p2@x.sk" "0902" "a2" 2]
    (by simp [waitlistSortedByBookedAt])
    (by refine ⟨by simp [opTimeOk], ⟨?_, trivial⟩⟩
        intro x hx
        simp [step, handleBooking, isFull, arrayUnion] at hx
        simp [hx])
  refine ⟨h.1, ?_⟩
  rw [h.2.1]
  rfl

/-- A cancel request whose contact data matches nothing leaves the state
untouched and reports the `cancelError` toast. -/
lemma handleCancelBooking_notFound (ev : Event) (email phone : String)
    (now : Nat) (hemail : email ≠ "") (hphone : phone ≠ "")
    (hnone : (ev.attendees ++ ev.waitlist).find? (matchesContact email phone)
              = none) :
    handleCancelBooking ev email phone now = (ev, CancelResult.notFound) := by
  unfold handleCancelBooking
  simp [hemail, hphone, hnone]

/-- Reduction of `handleCancelBooking` when the matched attendee sits in
the waitlist. -/
lemma handleCancelBooking_waitlist_branch (ev : Event) (email phone : String)
    (now : Nat) (a : Attendee) (hemail : email ≠ "") (hphone : phone ≠ "")
    (hfind : (ev.attendees ++ ev.waitlist).find? (matchesContact email phone)
              = some a)
    (hany : ev.waitlist.any (fun y => y.id == a.id) = true) :
    handleCancelBooking ev email phone now =
      ({ ev with waitlist := arrayRemove ev.waitlist a, updatedAt := now },
       CancelResult.removedFromWaitlist) := by
  have hcond : (email = "" || phone = "") = false := by
    simp [hemail, hphone]
  unfold handleCancelBooking
  simp only [hcond, Bool.false_eq_true, if_false, hfind, hany, if_true]

/-- Reduction of `handleCancelBooking` when the matched attendee is
confirmed and the waitlist is empty. -/
lemma handleCancelBooking_confirmed_nil (ev : Event) (email phone : String)
    (now : Nat) (a : Attendee) (hemail : email ≠ "") (hphone : phone ≠ "")
    (hfind : (ev.attendees ++ ev.waitlist).find? (matchesContact email phone)
              = some a)
    (hany : ev.waitlist.any (fun y => y.id == a.id) = false)
    (hwl : ev.waitlist = []) :
    handleCancelBooking ev email phone now =
      ({ ev with attendees := arrayRemove ev.attendees a, updatedAt := now },
       CancelResult.cancelledConfirmed false) := by
  have hcond : (email = "" || phone = "") = false := by
    simp [hemail, hphone]
  unfold handleCancelBooking
  simp only [hcond, Bool.false_eq_true, if_false, hfind, hany]
  simp [hwl]

/-- Reduction of `handleCancelBooking` when the matched attendee is
confirmed and the waitlist head gets promoted. -/
lemma handleCancelBooking_confirmed_promote (ev : Event)
    (email phone : String) (now : Nat) (a w0 : Attendee)
    (rest : List Attendee) (hemail : email ≠ "") (hphone : phone ≠ "")
    (hfind : (ev.attendees ++ ev.waitlist).find? (matchesContact email phone)
              = some a)
    (hany : ev.waitlist.any (fun y => y.id == a.id) = false)
    (hwl : ev.waitlist = w0 :: rest) :
    handleCancelBooking ev email phone now =
      ({ ev with
           attendees := arrayUnion (arrayRemove ev.attendees a) w0,
           waitlist := arrayRemove (w0 :: rest) w0,
           updatedAt := now },
       CancelResult.cancelledConfirmed true) := by
  have hcond : (email = "" || phone = "") = false := by
    simp [hemail, hphone]
  unfold handleCancelBooking
  simp only [hcond, Bool.false_eq_true, if_false, hfind, hany]
  simp [hwl]

/-- C9: when the cancel contact data matches both a confirmed attendee
and a waitlisted entry, the confirmed attendee is the one cancelled —
`attendees` is searched before `waitlist` — and every waitlisted entry
stays active (the head may move into `attendees` by promotion). -/
theorem c9_confirmed_duplicate_cancelled_first (ev : Event)
    (email phone : String) (now : Nat) (a : Attendee)
    (hemail : email ≠ "") (hphone : phone ≠ "")
    (hfindA : ev.attendees.find? (matchesContact email phone) = some a)
    (hids : ∀ y ∈ ev.waitlist, y.id ≠ a.id) :
    (handleCancelBooking ev email phone now).2 =
      CancelResult.cancelledConfirmed (!ev.waitlist.isEmpty) ∧
    a ∉ (handleCancelBooking ev email phone now).1.attendees ∧
    a ∉ (handleCancelBooking ev email phone now).1.waitlist ∧
    ∀ w ∈ ev.waitlist,
      w ∈ (handleCancelBooking ev email phone now).1.attendees ∨
      w ∈ (handleCancelBooking ev email phone now).1.waitlist := by
  have hfind : (ev.attendees ++ ev.waitlist).find? (matchesContact email phone)
      = some a := by
    rw [List.find?_append, hfindA]
    rfl
  have hany : ev.waitlist.any (fun y => y.id == a.id) = false := by
    rw [List.any_eq_false]
    intro y hy
    simp [hids y hy]
  have hcond : (email = "" || phone = "") = false := by
    simp [hemail, hphone]
  unfold handleCancelBooking
  simp only [hcond, Bool.false_eq_true, if_false, hfind, hany]
  cases hwl : ev.waitlist with
  | nil =>
    rw [hwl] at hids
    refine ⟨rfl, ?_, by simp, by simp⟩
    intro hmem
    exact (mem_arrayRemove.mp hmem).2 rfl
  | cons w0 rest =>
    rw [hwl] at hids
    have hw0ne : w0 ≠ a := fun heq =>
      hids w0 (List.mem_cons_self w0 rest) (heq ▸ rfl)
    refine ⟨rfl, ?_, ?_, ?_⟩
    · intro hmem
      rcases mem_arrayUnion.mp hmem with h1 | h1
      · exact (mem_arrayRemove.mp h1).2 rfl
      · exact hw0ne h1.symm
    · intro hmem
      exact hids a (mem_arrayRemove.mp hmem).1 rfl
    · intro w hw
      by_cases hww : w = w0
      · exact Or.inl (mem_arrayUnion.mpr (Or.inr hww))
      · exact Or.inr (mem_arrayRemove.mpr ⟨hw, hww⟩)

/-- Witness for C9: a participant registered both as confirmed and as
waitlisted under the same contact data; cancelling removes the confirmed
entry and the waitlisted duplicate survives (promoted). -/
theorem c9_confirmed_duplicate_cancelled_first_witness :
    handleCancelBooking
      { capacity := some 1,
        attendees := [{ id := "a1", name := "Jan", email := "jan@x.sk",
                        phone := "0901", bookedAt := 0 }],
        waitlist := [{ id := "w1", name := "Jan", email := "jan@x.sk",
                       phone := "0901", bookedAt := 1 }],
        updatedAt := 0 }
      "jan@x.sk" "0901" 7 =
      ({ capacity := some 1,
         attendees := [{ id := "w1", name := "Jan", email := "jan@x.sk",
                         phone := "0901", bookedAt := 1 }],
         waitlist := [], updatedAt := 7 },
       CancelResult.cancelledConfirmed true) := by
  have h := c9_confirmed_duplicate_cancelled_first
    { capacity := some 1,
      attendees := [{ id := "a1", name := "Jan", email := "jan@x.sk",
                      phone := "0901", bookedAt := 0 }],
      waitlist := [{ id := "w1", name := "Jan", email := "jan@x.sk",
                     phone := "0901", bookedAt := 1 }],
      updatedAt := 0 }
    "jan@x.sk" "0901" 7
    { id := "a1", name := "Jan", email := "jan@x.sk", phone := "0901",
      bookedAt := 0 }
    (by decide) (by decide) (by decide) (by decide)
  have h2 := h.1
  revert h2
  decide

/-- C4 counterexample: cancelling an already-cancelled registration is
not a no-op success — the second cancellation of the same contact data
hits the not-found branch and shows the destructive `cancelError` toast,
while the first one succeeded. -/
theorem c4_counterexample_second_cancel_errors :
    (handleCancelBooking
      ((handleCancelBooking
          { capacity := some 5,
            attendees := [{ id := "a1", name := "Jan", email := "jan@x.sk",
                            phone := "0901", bookedAt := 0 }],
            waitlist := [], updatedAt := 0 }
          "jan@x.sk" "0901" 1).1)
      "jan@x.sk" "0901" 2).2 = CancelResult.notFound ∧
    (handleCancelBooking
      { capacity := some 5,
        attendees := [{ id := "a1", name := "Jan", email := "jan@x.sk",
                        phone := "0901", bookedAt := 0 }],
        waitlist := [], updatedAt := 0 }
      "jan@x.sk" "0901" 1).2 = CancelResult.cancelledConfirmed false := by
  decide

/-- C4 amended: cancelling twice produces the same final state as
cancelling once — the second request finds nothing and leaves the state
untouched — provided the contact data matches exactly one active
registration and ids are unique across the two arrays; but the second
cancellation reports the not-found error, not a no-op success. -/
theorem c4_cancel_idempotent_state (ev : Event) (email phone : String)
    (t1 t2 : Nat) (a : Attendee)
    (hemail : email ≠ "") (hphone : phone ≠ "")
    (hfind : (ev.attendees ++ ev.waitlist).find? (matchesContact email phone)
              = some a)
    (huniq : ∀ x ∈ ev.attendees ++ ev.waitlist,
              matchesContact email phone x = true → x = a)
    (hids : ∀ x ∈ ev.attendees, ∀ y ∈ ev.waitlist, x.id ≠ y.id) :
    handleCancelBooking (handleCancelBooking ev email phone t1).1
        email phone t2 =
      ((handleCancelBooking ev email phone t1).1,
       CancelResult.notFound) := by
  have hamem := List.mem_of_find?_eq_some hfind
  by_cases hany : ev.waitlist.any (fun y => y.id == a.id) = true
  · obtain ⟨y, hy, hyid⟩ := List.any_eq_true.mp hany
    have hyid2 : y.id = a.id := by simpa using hyid
    have hanot : a ∉ ev.attendees := fun hmem =>
      hids a hmem y hy hyid2.symm
    rw [handleCancelBooking_waitlist_branch ev email phone t1 a hemail
      hphone hfind hany]
    apply handleCancelBooking_notFound _ _ _ _ hemail hphone
    show (ev.attendees ++ arrayRemove ev.waitlist a).find?
          (matchesContact email phone) = none
    rw [List.find?_eq_none]
    intro x hx hm
    rcases List.mem_append.mp hx with h1 | h1
    · exact hanot ((huniq x (List.mem_append.mpr (Or.inl h1)) hm) ▸ h1)
    · have h2 := mem_arrayRemove.mp h1
      exact h2.2 (huniq x (List.mem_append.mpr (Or.inr h2.1)) hm)
  · have hanyF : ev.waitlist.any (fun y => y.id == a.id) = false := by
      cases h : ev.waitlist.any (fun y => y.id == a.id) with
      | false => rfl
      | true => exact absurd h hany
    have hanw : a ∉ ev.waitlist := by
      intro hmem
      rw [List.any_eq_false] at hanyF
      exact hanyF a hmem (by simp)
    have hamem2 : a ∈ ev.attendees := by
      rcases List.mem_append.mp hamem with h1 | h1
      · exact h1
      · exact absurd h1 hanw
    cases hwl : ev.waitlist with
    | nil =>
      rw [handleCancelBooking_confirmed_nil ev email phone t1 a hemail
        hphone hfind hanyF hwl]
      apply handleCancelBooking_notFound _ _ _ _ hemail hphone
      show (arrayRemove ev.attendees a ++ ev.waitlist).find?
            (matchesContact email phone) = none
      rw [List.find?_eq_none]
      intro x hx hm
      rcases List.mem_append.mp hx with h1 | h1
      · exact (mem_arrayRemove.mp h1).2
          (huniq x (List.mem_append.mpr (Or.inl (mem_arrayRemove.mp h1).1))
            hm)
      · rw [hwl] at h1
        cases h1
    | cons w0 rest =>
      have hw0mem : w0 ∈ ev.waitlist := by
        rw [hwl]
        exact List.mem_cons_self w0 rest
      have hw0ne : w0 ≠ a := by
        intro heq
        exact hids a hamem2 w0 hw0mem (by rw [heq])
      rw [handleCancelBooking_confirmed_promote ev email phone t1 a w0 rest
        hemail hphone hfind hanyF hwl]
      apply handleCancelBooking_notFound _ _ _ _ hemail hphone
      show (arrayUnion (arrayRemove ev.attendees a) w0 ++
            arrayRemove (w0 :: rest) w0).find?
              (matchesContact email phone) = none
      rw [List.find?_eq_none]
      intro x hx hm
      rcases List.mem_append.mp hx with h1 | h1
      · rcases mem_arrayUnion.mp h1 with h2 | h2
        · exact (mem_arrayRemove.mp h2).2
            (huniq x
              (List.mem_append.mpr (Or.inl (mem_arrayRemove.mp h2).1)) hm)
        · subst h2
          exact hw0ne (huniq x (List.mem_append.mpr (Or.inr hw0mem)) hm)
      · have h2 := mem_arrayRemove.mp h1
        have hxw : x ∈ ev.waitlist := by
          rw [hwl]
          exact h2.1
        have hxa : x = a := huniq x (List.mem_append.mpr (Or.inr hxw)) hm
        subst hxa
        exact hanw hxw

/-- Witness for the amended C4 on a concrete event: the second
cancellation returns the unchanged state and the not-found outcome. -/
theorem c4_cancel_idempotent_state_witness :
    handleCancelBooking
      ((handleCancelBooking
          { capacity := some 2,
            attendees := [{ id := "a1", name := "P1", email := "p1@x.sk",
                            phone := "0901", bookedAt := 0 }],
            waitlist := [{ id := "w1", name := "P2", email := "p2@x.sk",
                           phone := "0902", bookedAt := 1 }],
            updatedAt := 0 }
          "p1@x.sk" "0901" 3).1)
      "p1@x.sk" "0901" 4 =
      ((handleCancelBooking
          { capacity := some 2,
            attendees := [{ id := "a1", name := "P1", email := "p1@x.sk",
                            phone := "0901", bookedAt := 0 }],
            waitlist := [{ id := "w1", name := "P2", email := "p2@x.sk",
                           phone := "0902", bookedAt := 1 }],
            updatedAt := 0 }
          "p1@x.sk" "0901" 3).1,
       CancelResult.notFound) := by
  exact c4_cancel_idempotent_state
    { capacity := some 2,
      attendees := [{ id := "a1", name := "P1", email := "p1@x.sk",
                      phone := "0901", bookedAt := 0 }],
      waitlist := [{ id := "w1", name := "P2", email := "p2@x.sk",
                     phone := "0902", bookedAt := 1 }],
      updatedAt := 0 }
    "p1@x.sk" "0901" 3 4
    { id := "a1", name := "P1", email := "p1@x.sk", phone := "0901",
      bookedAt := 0 }
    (by decide) (by decide) (by decide) (by decide) (by decide)

/-- Deleting a document by id makes it unreadable. -/
lemma getDocFrom_deleteDocFrom_self {α : Type} (coll : List (String × α))
    (i : String) : getDocFrom (deleteDocFrom coll i) i = none := by
  unfold getDocFrom deleteDocFrom
  rw [List.find?_eq_none.mpr]
  · rfl
  · intro p hp
    have h := (List.mem_filter.mp hp).2
    simp at h ⊢
    exact h

/-- Deleting one document keeps every other absent document absent. -/
lemma getDocFrom_deleteDocFrom_none {α : Type} {coll : List (String × α)}
    {i : String} (j : String) (h : getDocFrom coll i = none) :
    getDocFrom (deleteDocFrom coll j) i = none := by
  unfold getDocFrom deleteDocFrom
  unfold getDocFrom at h
  rw [List.find?_eq_none.mpr]
  · rfl
  · intro p hp
    have hmem := (List.mem_filter.mp hp).1
    have hnone : ∀ q ∈ coll, ¬ (q.1 == i) = true := by
      rw [← List.find?_eq_none]
      cases hf : coll.find? (fun q => q.1 == i) with
      | none => rfl
      | some q => rw [hf] at h; cases h
    exact hnone p hmem

/-- The registration-deletion fold never touches the events collection. -/
lemma deleteFold_events (regs : List Registration) (st : FirestoreState) :
    (regs.foldl
      (fun s reg =>
        { s with registrations := deleteDocFrom s.registrations reg.id })
      st).events = st.events := by
  induction regs generalizing st with
  | nil => rfl
  | cons r rs ih =>
    simp only [List.foldl_cons]
    rw [ih]

/-- The registration-deletion fold keeps an absent registration absent. -/
lemma deleteFold_none (regs : List Registration) (st : FirestoreState)
    (i : String) (h : getDocFrom st.registrations i = none) :
    getDocFrom
      ((regs.foldl
        (fun s reg =>
          { s with registrations := deleteDocFrom s.registrations reg.id })
        st).registrations) i = none := by
  induction regs generalizing st with
  | nil => exact h
  | cons r rs ih =>
    simp only [List.foldl_cons]
    exact ih _ (getDocFrom_deleteDocFrom_none r.id h)

/-- The registration-deletion fold removes every listed registration. -/
lemma deleteFold_removes (regs : List Registration) (st : FirestoreState)
    (r : Registration) (hr : r ∈ regs) :
    getDocFrom
      ((regs.foldl
        (fun s reg =>
          { s with registrations := deleteDocFrom s.registrations reg.id })
        st).registrations) r.id = none := by
  induction regs generalizing st with
  | nil => cases hr
  | cons r0 rs ih =>
    simp only [List.foldl_cons]
    rcases List.mem_cons.mp hr with h1 | h1
    · subst h1
      exact deleteFold_none rs _ r.id (getDocFrom_deleteDocFrom_self _ _)
    · exact ih _ h1

/-- C8 counterexample: deleting a session does NOT preserve registration
records — after `handleDeleteEvent` the registration document (and its
check-in code) is gone from the store, although it was present before. -/
theorem c8_counterexample_delete_event_removes_registration :
    getDocFrom
      (handleDeleteEvent
        { events := [("e1", { id := "e1", trainers := [], trainerId := none })],
          registrations :=
            [("r1", { id := "r1", eventId := "e1", trainerId := "t1",
                      name := "Jan", email := "jan@x.sk", phone := "0901",
                      uniqueCode := "203-776", status := RegStatus.confirmed,
                      position := none })],
          walkIns := [] }
        "e1"
        [{ id := "r1", eventId := "e1", trainerId := "t1", name := "Jan",
           email := "jan@x.sk", phone := "0901", uniqueCode := "203-776",
           status := RegStatus.confirmed, position := none }]).registrations
      "r1" = none ∧
    getDocFrom
      ([("r1", { id := "r1", eventId := "e1", trainerId := "t1",
                 name := "Jan", email := "jan@x.sk", phone := "0901",
                 uniqueCode := "203-776", status := RegStatus.confirmed,
                 position := none })] :
        List (String × Registration)) "r1" =
      some { id := "r1", eventId := "e1", trainerId := "t1", name := "Jan",
             email := "jan@x.sk", phone := "0901", uniqueCode := "203-776",
             status := RegStatus.confirmed, position := none } := by
  decide

/-- C8 amended: administrative session deletion physically deletes the
event document and every fetched registration document from the store, so
the registration records and their check-in codes do not remain after it;
only the status-transition cancel path of the new system preserves them. -/
theorem c8_delete_event_removes_all (st : FirestoreState) (eventId : String)
    (regs : List Registration) :
    getDocFrom (handleDeleteEvent st eventId regs).events eventId = none ∧
    ∀ r ∈ regs,
      getDocFrom (handleDeleteEvent st eventId regs).registrations r.id =
        none := by
  constructor
  · unfold handleDeleteEvent
    rw [deleteFold_events]
    exact getDocFrom_deleteDocFrom_self _ _
  · intro r hr
    unfold handleDeleteEvent
    exact deleteFold_removes regs _ r hr

/-- Witness for the amended C8 at a concrete store. -/
theorem c8_delete_event_removes_all_witness :
    getDocFrom
      (handleDeleteEvent
        { events := [("e2", { id := "e2", trainers := [], trainerId := none })],
          registrations :=
            [("r2", { id := "r2", eventId := "e2", trainerId := "t1",
                      name := "Eva", email := "eva@x.sk", phone := "0902",
                      uniqueCode := "101-202", status := RegStatus.waitlist,
                      position := some 1 })],
          walkIns := [] }
        "e2"
        [{ id := "r2", eventId := "e2", trainerId := "t1", name := "Eva",
           email := "eva@x.sk", phone := "0902", uniqueCode := "101-202",
           status := RegStatus.waitlist, position := some 1 }]).registrations
      "r2" = none := by
  exact (c8_delete_event_removes_all _ "e2" _).2
    { id := "r2", eventId := "e2", trainerId := "t1", name := "Eva",
      email := "eva@x.sk", phone := "0902", uniqueCode := "101-202",
      status := RegStatus.waitlist, position := some 1 }
    (List.mem_singleton.mpr rfl)
